import Mathlib

/-!
Formal model of the evaluation utilities of the vimss repository, namely
src/Evaluate.py (functions alpha_snr, predict, predict_track,
compute_mean_metrics) and src/Wave-U-Net/Datasets.py (function
write_wav_skip_existing).

Modelling conventions.
* Audio samples and metric scores are exact rationals; the float rounding of
  numpy is abstracted away, while the IEEE special values that the code can
  actually produce (NaN and the infinities coming out of division by zero and
  log10) are modelled explicitly: alpha_snr returns a value of the inductive
  type FVal, and a metric score that may be NaN is an Option, with none
  standing for NaN.
* Stateful and external pieces (the tensorflow session, librosa resampling,
  the filesystem) are passed explicitly: the network call and the resampler
  are opaque function parameters, the filesystem is a function from paths to
  optional file contents.
* Fallible code returns Except: a failed Python assert or an uncaught Python
  exception becomes an error value.
-/

namespace Vimss

/-- A 2-D numpy array with shape (frames, channels): a list of frames, each a
list of per-channel samples. -/
abbrev Mat : Type := List (List ℚ)

/-! ## Sliding-window tiling (Evaluate.py, predict_track, lines 172-175)

The loop is `for source_pos in range(0, source_time_frames, output_time_frames)`
followed by the in-loop reassignment
`if source_pos + output_time_frames > source_time_frames:
source_pos = source_time_frames - output_time_frames`.
Reassigning the loop variable inside a Python for-loop does not change the
iteration sequence, so the window starts actually used are exactly the values
of `range(0, L, O)` with the reassignment applied elementwise.  The
reassigned value `L - O` is a Python int and may be negative, hence ℤ. -/

/-- The sequence of values taken by `source_pos` in the tiling loop of
predict_track: `range(0, L, O)` has `(L + O - 1) / O` elements `k * O`, and an
element is replaced by `L - O` when `k * O + O > L`. -/
def windowStarts (L O : ℕ) : List ℤ :=
  (List.range ((L + O - 1) / O)).map
    (fun k => if k * O + O > L then (L : ℤ) - (O : ℤ) else ((k * O : ℕ) : ℤ))

/-! ## Optimal-scale SNR (Evaluate.py, alpha_snr, lines 35-44) -/

/-- A numpy floating-point scalar: a finite value (held exactly), +inf, -inf
or NaN. -/
inductive FVal where
  | fin (x : ℝ)
  | posInf
  | negInf
  | nan

/-- `np.sum(np.square(l))`. -/
def sumsq (l : List ℚ) : ℚ := (l.map (fun x => x * x)).sum

/-- `np.inner(a, b)` for equal-length 1-D arrays. -/
def dot (a b : List ℚ) : ℚ := (List.zipWith (fun x y => x * y) a b).sum

/-- `alpha = inner_prod / estimate_power` (Evaluate.py line 41), meaningful
when the estimate power is nonzero. -/
def alphaCoeff (target estimate : List ℚ) : ℚ :=
  dot estimate target / sumsq estimate

/-- `error_power = np.sum(np.square(target - alpha * estimate))`
(Evaluate.py line 42). -/
def errPower (target estimate : List ℚ) : ℚ :=
  sumsq (List.zipWith (fun ti ei => ti - alphaCoeff target estimate * ei) target estimate)

/-- Evaluate.py lines 38-44.  The branches spell out the IEEE float semantics
of the straight-line numpy code on exact inputs:
* `estimate_power == 0` forces every estimate sample to be 0, hence
  `inner_prod == 0` and `alpha = 0/0 = NaN`; NaN then propagates through
  `target - alpha * estimate`, `error_power` and the final log10, so the
  function returns NaN (numpy emits a RuntimeWarning but raises nothing);
* otherwise alpha and error_power are finite; if `error_power == 0` the
  result is `10*log10(target_power / 0)`, which is +inf when
  `target_power > 0` and `log10(0/0) = NaN` when `target_power == 0`;
* if `error_power > 0` and `target_power == 0` the result is
  `10*log10(0) = -inf` (this branch is in fact unreachable: a zero-power
  target forces a zero error power);
* in the remaining, generic case the result is the finite real
  `10*log10(target_power / error_power)`. -/
noncomputable def alpha_snr (target estimate : List ℚ) : FVal :=
  if sumsq estimate = 0 then FVal.nan
  else if errPower target estimate = 0 then
    (if sumsq target = 0 then FVal.nan else FVal.posInf)
  else if sumsq target = 0 then FVal.negInf
  else FVal.fin (10 * Real.logb 10 ((sumsq target : ℝ) / (errPower target estimate : ℝ)))

/-! ## Channel adaptation (Evaluate.py, predict_track lines 153-157 and
predict lines 106-107) -/

/-- `mix_audio.shape[1]`: the channel count of a (rectangular) 2-D array. -/
def numChannels (m : Mat) : ℕ := ((m.head?).map List.length).getD 0

/-- `np.mean(row)` over the channel axis for a single frame. -/
def rowMean (r : List ℚ) : ℚ := r.sum / (r.length : ℚ)

/-- Evaluate.py lines 153-157: with mono_downmix, average the channels into
one (`np.mean(mix_audio, axis=1, keepdims=True)`); otherwise duplicate a
single channel to two (`np.tile(mix_audio, [1, 2])`); any other shape passes
through unchanged. -/
def adaptChannels (mono : Bool) (m : Mat) : Mat :=
  if mono then m.map (fun r => [rowMean r])
  else if numChannels m = 1 then m.map (fun r => r ++ r)
  else m

/-- `np.tile(row, c)` for one frame: the row repeated `c` times. -/
def tileRow (r : List ℚ) (c : ℕ) : List ℚ := (List.replicate c r).flatten

/-- Evaluate.py lines 106-107 (in predict): if mono_downmix was used and the
original mixture had more than one channel, `np.tile(pred, [1, mix_channels])`
replicates the single estimated channel across all original channels. -/
def restoreChannels (mono : Bool) (mixChannels : ℕ) (preds : List Mat) : List Mat :=
  if mono ∧ 1 < mixChannels then
    preds.map (fun p => p.map (fun r => tileRow r mixChannels))
  else preds

/-! ## predict_track (Evaluate.py lines 137-188) -/

/-- The mixture argument of predict_track as a numpy array of arbitrary rank.
Only rank-2 contents are ever inspected (the assert at line 152 fires first
otherwise), so rank-1 data is carried but unused and ranks other than 1 and 2
are represented by their rank alone. -/
inductive NPArr where
  | vec (xs : List ℚ)
  | mat (m : Mat)
  | arrN (n : ℕ)

/-- `len(a.shape)`. -/
def NPArr.ndim : NPArr → ℕ
  | NPArr.vec _ => 1
  | NPArr.mat _ => 2
  | NPArr.arrN n => n

/-- Extract the rank-2 payload (meaningful after the rank-2 check). -/
def NPArr.asMat : NPArr → Mat
  | NPArr.mat m => m
  | _ => []

/-- numpy slice assignment `buf[pos:pos+len(seg)] = seg` along the frame
axis, exact when `pos + seg.length ≤ buf.length` (which the tiling loop
guarantees whenever the resampled track is at least one output window long). -/
def writeRows (buf : Mat) (pos : ℕ) (seg : Mat) : Mat :=
  buf.take pos ++ seg ++ buf.drop (pos + seg.length)

/-- Evaluate.py lines 160-188: preallocate one zero buffer per source, pad the
mixture by `(I - O) / 2` zero frames on both sides, then for each window start
feed the `I`-frame excerpt to the network and write the `i`-th returned
`O`-frame part into buffer `i` at the window start. -/
def tileInfer (numSources I O : ℕ) (infer : Mat → List Mat) (m : Mat) : List Mat :=
  let L := m.length
  let C := numChannels m
  let pad := (I - O) / 2
  let zeroRow : List ℚ := List.replicate C 0
  let padded := List.replicate pad zeroRow ++ m ++ List.replicate pad zeroRow
  (windowStarts L O).foldl
    (fun bufs s =>
      let part := infer ((padded.drop s.toNat).take I)
      bufs.mapIdx (fun i buf => writeRows buf s.toNat ((part[i]?).getD [])))
    (List.replicate numSources (List.replicate L zeroRow))

/-- Failures of predict_track.  invalidInput models the failed Python
`assert(len(mix_audio.shape) == 2)` at Evaluate.py line 152, which the spec
names InvalidInputError. -/
inductive PredictErr where
  | invalidInput

/-- Evaluate.py lines 137-188.  The rank check comes first; only then is the
mixture channel-adapted, resampled (librosa.resample, an opaque collaborator
`resample`) and tiled through the network (`infer`, the sess.run call). -/
def predict_track (mono : Bool) (numSources I O : ℕ)
    (resample : Mat → Mat) (infer : Mat → List Mat) (mix : NPArr) :
    Except PredictErr (List Mat) :=
  if NPArr.ndim mix = 2 then
    Except.ok (tileInfer numSources I O infer (resample (adaptChannels mono (NPArr.asMat mix))))
  else
    Except.error PredictErr.invalidInput

/-! ## Metric aggregation (Evaluate.py, compute_mean_metrics, lines 191-211)

A score record (one JSON file) is the list of its targets, each target the
list of its per-frame SDR scores; a score is `Option ℚ` with none = NaN. -/

/-- Drop the NaN entries of a score list (what the np.nan* reductions do
before reducing). -/
def filterNaN (xs : List (Option ℚ)) : List ℚ := xs.filterMap id

/-- `np.median` on a NaN-free list: sort; middle element for odd length,
mean of the two middle elements for even length; NaN (none) when empty. -/
def listMedian (xs : List ℚ) : Option ℚ :=
  if xs.length = 0 then none
  else
    let s := List.insertionSort (fun x y => x ≤ y) xs
    if xs.length % 2 = 1 then some (s.getD (xs.length / 2) 0)
    else some ((s.getD (xs.length / 2 - 1) 0 + s.getD (xs.length / 2) 0) / 2)

/-- `np.mean` on a NaN-free list; NaN (none) when empty. -/
def listMean (xs : List ℚ) : Option ℚ :=
  if xs.length = 0 then none else some (xs.sum / (xs.length : ℚ))

/-- The square of `np.std` on a NaN-free list (the population variance,
ddof = 0); NaN (none) when empty.  np.nanstd is the square root of this,
and the square root neither creates nor removes NaN on a variance. -/
def listVar (xs : List ℚ) : Option ℚ :=
  if xs.length = 0 then none
  else some (((xs.map (fun x => (x - xs.sum / (xs.length : ℚ)) ^ 2)).sum) / (xs.length : ℚ))

/-- `np.nanmedian`: the plain median of the non-NaN entries; NaN when none
remain (numpy warns on an all-NaN slice but raises nothing). -/
def nanmedian (xs : List (Option ℚ)) : Option ℚ := listMedian (filterNaN xs)

/-- `np.nanmean` of the non-NaN entries. -/
def nanmean (xs : List (Option ℚ)) : Option ℚ := listMean (filterNaN xs)

/-- The square of `np.nanstd` of the non-NaN entries. -/
def nanvar (xs : List (Option ℚ)) : Option ℚ := listVar (filterNaN xs)

/-- `np.abs(sdr - np.nanmedian(sdr))` elementwise: when the nanmedian is NaN
every entry becomes NaN; otherwise NaN entries stay NaN and finite entries
become absolute deviations from the median. -/
def nanDeviations (xs : List (Option ℚ)) : List (Option ℚ) :=
  match nanmedian xs with
  | none => xs.map (fun _ => none)
  | some m => xs.map (Option.map (fun x => |x - m|))

/-- One tuple of Evaluate.py line 209:
`(np.nanmedian(sdr), np.nanmedian(np.abs(sdr - np.nanmedian(sdr))),
np.nanmean(sdr), np.nanstd(sdr))`, with the std component carried as its
square (the variance). -/
def summarizeSource (xs : List (Option ℚ)) :
    Option ℚ × Option ℚ × Option ℚ × Option ℚ :=
  (nanmedian xs, nanmedian (nanDeviations xs), nanmean xs, nanvar xs)

/-- Python exceptions that compute_mean_metrics can raise: TypeError from
iterating over the still-None accumulator when no JSON file was found, and
IndexError from `sdr_inst_list[i]` when a later file has more targets than
the first one. -/
inductive PyErr where
  | typeError
  | indexError

/-- The body of the accumulation loop (Evaluate.py lines 194-203) for one
JSON record: on the first record the accumulator is initialised to one empty
list per target of that record; then target `i` of the record is appended to
list `i` for each `i < record target count`. -/
def extendAll : List (List (Option ℚ)) → List (List (Option ℚ)) → List (List (Option ℚ))
  | ls, [] => ls
  | [], _ :: _ => []
  | l :: ls, t :: ts => (l ++ t) :: extendAll ls ts

/-- One iteration of the file loop: initialise the accumulator from the first
record if needed, then extend; indexing past the accumulator length raises
IndexError. -/
def accumStep (acc : Option (List (List (Option ℚ)))) (js : List (List (Option ℚ))) :
    Except PyErr (Option (List (List (Option ℚ)))) :=
  let lists := acc.getD (List.replicate js.length ([] : List (Option ℚ)))
  if js.length ≤ lists.length then Except.ok (some (extendAll lists js))
  else Except.error PyErr.indexError

/-- The two possible return shapes of compute_mean_metrics, selected by
compute_averages. -/
inductive MetricsOut where
  | averages (stats : List (Option ℚ × Option ℚ × Option ℚ × Option ℚ))
  | raw (lists : List (List (Option ℚ)))

/-- Evaluate.py lines 191-211.  `records` is the glob result in directory
order, each record already reduced to its per-target SDR frame lists.  The
accumulator starts as Python None; the list comprehension at line 206 runs
before the compute_averages branch and iterating over None raises TypeError,
so an empty folder fails in both modes. -/
def compute_mean_metrics (records : List (List (List (Option ℚ))))
    (compute_averages : Bool) : Except PyErr MetricsOut := do
  let acc ← records.foldlM accumStep none
  match acc with
  | none => Except.error PyErr.typeError
  | some lists =>
    if compute_averages then Except.ok (MetricsOut.averages (lists.map summarizeSource))
    else Except.ok (MetricsOut.raw lists)

/-- The multiset of scores that accumulation gathers for source `i`: the
concatenation, in record order, of target `i` of every record (records
without a target `i` contribute nothing). -/
def gatherSource (records : List (List (List (Option ℚ)))) (i : ℕ) : List (Option ℚ) :=
  (records.map (fun r => (r[i]?).getD [])).flatten

/-! ## write_wav_skip_existing (Wave-U-Net/Datasets.py lines 113-117)

The filesystem is a function from paths (any type with decidable equality)
to optional file contents; a file holds its samples and sample rate. -/

/-- Datasets.py lines 113-117: if no file exists at `path`, write `(y, sr)`
there (soundfile.write with PCM_16); otherwise print a warning and leave the
filesystem untouched. -/
def write_wav_skip_existing {π : Type} [DecidableEq π]
    (fs : π → Option (List ℚ × ℕ)) (path : π) (y : List ℚ) (sr : ℕ) :
    π → Option (List ℚ × ℕ) :=
  if fs path = none then
    fun p => if p = path then some (y, sr) else fs p
  else fs

/-! # Theorems -/

/-! ## C1: tiling coverage -/

/-- Closed form of the window-start list when the resampled track is at least
one output window long: some `m` windows at multiples of `O` followed by the
final, possibly shifted, window at `L - O`; the bundled bounds say that
`m + 1` is the iteration count of `range(0, L, O)` and that `O * m < L ≤
O * (m + 1)`. -/
theorem windowStarts_closed {L O : ℕ} (hO : 0 < O) (hL : O ≤ L) :
    ∃ m : ℕ,
      (L + O - 1) / O = m + 1 ∧
      L ≤ O * (m + 1) ∧ O * m < L ∧
      windowStarts L O =
        (List.range m).map (fun k => ((k * O : ℕ) : ℤ)) ++ [(L : ℤ) - (O : ℤ)] := by
  have hdm := Nat.div_add_mod (L + O - 1) O
  have hmod : (L + O - 1) % O < O := Nat.mod_lt _ hO
  have hq1 : 1 ≤ (L + O - 1) / O := (Nat.one_le_div_iff hO).2 (by omega)
  obtain ⟨m, hm⟩ : ∃ m, (L + O - 1) / O = m + 1 := ⟨(L + O - 1) / O - 1, by omega⟩
  have hOom : O * (m + 1) = O * m + O := by ring
  rw [hm] at hdm
  have hub : L ≤ O * (m + 1) := by omega
  have hlo : O * m < L := by omega
  refine ⟨m, hm, hub, hlo, ?_⟩
  unfold windowStarts
  rw [hm, List.range_succ, List.map_append]
  congr 1
  · apply List.map_congr_left
    intro k hk
    rw [List.mem_range] at hk
    have h1 : (k + 1) * O ≤ m * O := Nat.mul_le_mul_right O hk
    have h2 : m * O = O * m := Nat.mul_comm m O
    have h3 : (k + 1) * O = k * O + O := by ring
    rw [if_neg (by omega)]
  · simp only [List.map_cons, List.map_nil]
    congr 1
    by_cases hc : m * O + O > L
    · rw [if_pos hc]
    · rw [if_neg hc]
      have h2 : m * O = O * m := Nat.mul_comm m O
      have hEq : m * O + O = L := by omega
      omega

/-- C1: whenever the resampled length `L` is at least the output window `O`
(and `O` is positive), the window starts produced by the tiling loop of
predict_track satisfy: (i) the loop runs `ceil(L / O)` times; (ii) every
non-final start is `i * O`, advancing by `O` from 0; (iii) the final start is
`L - O`, so the final output segment ends exactly at `L`; (iv) the output
segments `[s, s + O)` exactly cover `[0, L)` with no gaps; (v) no two
non-final windows overlap; (vi) any two overlapping windows are the final
two; and (vii) concretely `windowStarts 1000 400 = [0, 400, 600]`, so with
`input_frame_count = 600` the three output segments cover `[0, 1000)` and
the final shifted window writes `[600, 1000)`. -/
theorem claim_C1_tiling_coverage {L O : ℕ} (hO : 0 < O) (hL : O ≤ L) :
    ((windowStarts L O).length = (L + O - 1) / O) ∧
    (∀ i, i + 1 < (windowStarts L O).length →
      (windowStarts L O)[i]? = some ((i : ℤ) * (O : ℤ))) ∧
    ((windowStarts L O)[(windowStarts L O).length - 1]? = some ((L : ℤ) - (O : ℤ))) ∧
    (∀ x : ℤ, (0 ≤ x ∧ x < (L : ℤ)) ↔ ∃ s ∈ windowStarts L O, s ≤ x ∧ x < s + (O : ℤ)) ∧
    (∀ i j si sj, i < j → j + 1 < (windowStarts L O).length →
      (windowStarts L O)[i]? = some si → (windowStarts L O)[j]? = some sj →
      si + (O : ℤ) ≤ sj) ∧
    (∀ i j si sj, i < j →
      (windowStarts L O)[i]? = some si → (windowStarts L O)[j]? = some sj →
      sj < si + (O : ℤ) →
      i + 2 = (windowStarts L O).length ∧ j + 1 = (windowStarts L O).length) ∧
    windowStarts 1000 400 = [0, 400, 600] := by
  obtain ⟨m, hm, hub, hlo, hW⟩ := windowStarts_closed hO hL
  have hOom : O * (m + 1) = O * m + O := by ring
  have hlen : (windowStarts L O).length = m + 1 := by
    rw [hW]; simp
  have hgetlt : ∀ i, i < m → (windowStarts L O)[i]? = some ((i : ℤ) * (O : ℤ)) := by
    intro i hi
    rw [hW, List.getElem?_append_left (by simpa using hi), List.getElem?_map,
      List.getElem?_range hi]
    have hc : ((i * O : ℕ) : ℤ) = (i : ℤ) * (O : ℤ) := by push_cast; ring
    simp [hc]
  have hgetlast : (windowStarts L O)[m]? = some ((L : ℤ) - (O : ℤ)) := by
    rw [hW, List.getElem?_append_right (by simp)]
    simp
  refine ⟨by rw [hlen, hm], ?_, ?_, ?_, ?_, ?_, by decide⟩
  · intro i hi
    exact hgetlt i (by omega)
  · rw [hlen]
    simpa using hgetlast
  · intro x
    constructor
    · rintro ⟨hx0, hxL⟩
      by_cases hxe : (L : ℤ) - (O : ℤ) ≤ x
      · refine ⟨(L : ℤ) - (O : ℤ), ?_, hxe, by omega⟩
        rw [hW]
        exact List.mem_append_right _ (List.mem_singleton.2 rfl)
      · have hxt : ((x.toNat : ℤ)) = x := Int.toNat_of_nonneg hx0
        have hdm2 := Nat.div_add_mod x.toNat O
        have hmod2 : x.toNat % O < O := Nat.mod_lt _ hO
        set k := x.toNat / O with hk
        have hxLO : x.toNat < L - O := by omega
        have hOk : O * k ≤ x.toNat := by omega
        have hkm : k < m := by
          have h3 : O * k < O * m := by omega
          exact Nat.lt_of_mul_lt_mul_left h3
        have hco : k * O = O * k := Nat.mul_comm k O
        refine ⟨((k * O : ℕ) : ℤ), ?_, by omega, by omega⟩
        rw [hW]
        exact List.mem_append_left _ (List.mem_map.2 ⟨k, List.mem_range.2 hkm, rfl⟩)
    · rintro ⟨s, hs, hsx, hxs⟩
      rw [hW] at hs
      rcases List.mem_append.1 hs with hs1 | hs2
      · obtain ⟨k, hk, rfl⟩ := List.mem_map.1 hs1
        rw [List.mem_range] at hk
        have h1 : (k + 1) * O ≤ m * O := Nat.mul_le_mul_right O hk
        have h2 : (k + 1) * O = k * O + O := by ring
        have h3 : m * O = O * m := Nat.mul_comm m O
        constructor
        · have h4 : (0 : ℤ) ≤ ((k * O : ℕ) : ℤ) := Int.natCast_nonneg _
          omega
        · omega
      · rw [List.mem_singleton] at hs2
        subst hs2
        omega
  · intro i j si sj hij hjle hgi hgj
    rw [hlen] at hjle
    have hj : j < m := by omega
    have hi : i < m := lt_trans hij hj
    rw [hgetlt i hi] at hgi
    rw [hgetlt j hj] at hgj
    have hsi : (i : ℤ) * (O : ℤ) = si := Option.some.inj hgi
    have hsj : (j : ℤ) * (O : ℤ) = sj := Option.some.inj hgj
    subst hsi; subst hsj
    have hij1 : (i : ℤ) + 1 ≤ (j : ℤ) := by exact_mod_cast hij
    have h5 : ((i : ℤ) + 1) * (O : ℤ) ≤ (j : ℤ) * (O : ℤ) :=
      mul_le_mul_of_nonneg_right hij1 (by positivity)
    have h6 : ((i : ℤ) + 1) * (O : ℤ) = (i : ℤ) * (O : ℤ) + (O : ℤ) := by ring
    linarith
  · intro i j si sj hij hgi hgj hover
    have hjlen : j < (windowStarts L O).length := by
      by_contra hcon
      rw [List.getElem?_eq_none (by omega)] at hgj
      exact Option.noConfusion hgj
    rw [hlen] at hjlen
    have hjm : j = m := by
      by_contra hne
      have hj : j < m := by omega
      have hi : i < m := lt_trans hij hj
      rw [hgetlt i hi] at hgi
      rw [hgetlt j hj] at hgj
      have hsi : (i : ℤ) * (O : ℤ) = si := Option.some.inj hgi
      have hsj : (j : ℤ) * (O : ℤ) = sj := Option.some.inj hgj
      subst hsi; subst hsj
      have hij1 : (i : ℤ) + 1 ≤ (j : ℤ) := by exact_mod_cast hij
      have h5 : ((i : ℤ) + 1) * (O : ℤ) ≤ (j : ℤ) * (O : ℤ) :=
        mul_le_mul_of_nonneg_right hij1 (by positivity)
      have h6 : ((i : ℤ) + 1) * (O : ℤ) = (i : ℤ) * (O : ℤ) + (O : ℤ) := by ring
      linarith
    subst hjm
    rw [hgetlast] at hgj
    have hsj : (L : ℤ) - (O : ℤ) = sj := Option.some.inj hgj
    subst hsj
    have him : i < j := hij
    rw [hgetlt i him] at hgi
    have hsi : (i : ℤ) * (O : ℤ) = si := Option.some.inj hgi
    subst hsi
    have hi1 : i + 1 = j := by
      by_contra hne
      have hi2 : (i : ℤ) + 2 ≤ (j : ℤ) := by exact_mod_cast (by omega : i + 2 ≤ j)
      have hc1 : ((i : ℤ) + 1) * (O : ℤ) ≤ ((j : ℤ) - 1) * (O : ℤ) :=
        mul_le_mul_of_nonneg_right (by linarith) (by positivity)
      have hc2 : (O : ℤ) * (j : ℤ) < (L : ℤ) := by exact_mod_cast hlo
      have e1 : ((i : ℤ) + 1) * (O : ℤ) = (i : ℤ) * (O : ℤ) + (O : ℤ) := by ring
      have e2 : ((j : ℤ) - 1) * (O : ℤ) = (O : ℤ) * (j : ℤ) - (O : ℤ) := by ring
      linarith
    rw [hlen]
    omega

/-- Witness for C1 at the concrete scenario of the spec: `L = 1000`,
`O = 400`. -/
theorem claim_C1_tiling_coverage_witness :
    windowStarts 1000 400 = [0, 400, 600] ∧
    ∃ s ∈ windowStarts 1000 400, s ≤ 999 ∧ (999 : ℤ) < s + 400 := by
  obtain ⟨-, -, -, hcov, -, -, hconc⟩ :=
    claim_C1_tiling_coverage (show 0 < 400 by norm_num) (show 400 ≤ 1000 by norm_num)
  exact ⟨hconc, (hcov 999).1 (by norm_num)⟩

/-! ## Numeric helper lemmas for alpha_snr -/

theorem sumsq_cons (x : ℚ) (l : List ℚ) : sumsq (x :: l) = x * x + sumsq l := by
  simp [sumsq]

theorem dot_cons (x y : ℚ) (a b : List ℚ) : dot (x :: a) (y :: b) = x * y + dot a b := by
  simp [dot]

theorem sumsq_nonneg (l : List ℚ) : 0 ≤ sumsq l := by
  apply List.sum_nonneg
  intro x hx
  obtain ⟨y, -, rfl⟩ := List.mem_map.1 hx
  exact mul_self_nonneg y

theorem sumsq_eq_zero_iff (l : List ℚ) : sumsq l = 0 ↔ ∀ x ∈ l, x = 0 := by
  induction l with
  | nil => simp [sumsq]
  | cons x l ih =>
    rw [sumsq_cons]
    constructor
    · intro h
      have h1 : 0 ≤ x * x := mul_self_nonneg x
      have h2 : 0 ≤ sumsq l := sumsq_nonneg l
      have hx : x * x = 0 := by linarith
      have hl : sumsq l = 0 := by linarith
      intro z hz
      rcases List.mem_cons.1 hz with rfl | hz2
      · exact mul_self_eq_zero.1 hx
      · exact ih.1 hl z hz2
    · intro h
      have hx : x = 0 := h x (List.mem_cons_self x l)
      have hl : sumsq l = 0 := ih.2 (fun z hz => h z (List.mem_cons_of_mem x hz))
      rw [hx, hl]
      ring

theorem dot_zero_right (a b : List ℚ) (h : ∀ x ∈ b, x = 0) : dot a b = 0 := by
  induction a generalizing b with
  | nil => simp [dot]
  | cons x a ih =>
    cases b with
    | nil => simp [dot]
    | cons y b =>
      have hy : y = 0 := h y (List.mem_cons_self y b)
      have hb : ∀ z ∈ b, z = 0 := fun z hz => h z (List.mem_cons_of_mem y hz)
      rw [dot_cons, hy, ih b hb]
      ring

/-- Any element of a zipWith list comes from a pair of elements of the two
input lists. -/
theorem mem_zipWith {α β γ : Type} {f : α → β → γ} {z : γ} :
    ∀ {a : List α} {b : List β}, z ∈ List.zipWith f a b → ∃ x ∈ a, ∃ y ∈ b, z = f x y := by
  intro a
  induction a with
  | nil =>
    intro b h
    simp at h
  | cons x a ih =>
    intro b h
    cases b with
    | nil => simp at h
    | cons y b =>
      rw [List.zipWith_cons_cons, List.mem_cons] at h
      rcases h with rfl | h2
      · exact ⟨x, List.mem_cons_self x a, y, List.mem_cons_self y b, rfl⟩
      · obtain ⟨x2, hx2, y2, hy2, rfl⟩ := ih h2
        exact ⟨x2, List.mem_cons_of_mem x hx2, y2, List.mem_cons_of_mem y hy2, rfl⟩

/-- A zero-power target forces a zero error power (the subtracted scaled
estimate is `0 * estimate`). -/
theorem errPower_eq_zero_of_target (t e : List ℚ) (ht : sumsq t = 0) :
    errPower t e = 0 := by
  have ht0 : ∀ x ∈ t, x = 0 := (sumsq_eq_zero_iff t).1 ht
  have hα : alphaCoeff t e = 0 := by
    unfold alphaCoeff
    rw [dot_zero_right e t ht0, zero_div]
  unfold errPower
  rw [hα]
  apply (sumsq_eq_zero_iff _).2
  intro z hz
  obtain ⟨ti, hti, ei, -, rfl⟩ := mem_zipWith hz
  rw [ht0 ti hti]
  ring

/-- Expansion of the error power for an arbitrary scale `a`:
`Σ (t_i - a e_i)^2 = Σ t_i^2 - 2 a Σ e_i t_i + a^2 Σ e_i^2`. -/
theorem sumsq_sub_scaled (t e : List ℚ) (hlen : t.length = e.length) (a : ℚ) :
    sumsq (List.zipWith (fun ti ei => ti - a * ei) t e)
      = sumsq t - 2 * a * dot e t + a ^ 2 * sumsq e := by
  induction t generalizing e with
  | nil =>
    cases e with
    | nil => simp [sumsq, dot]
    | cons y e => simp at hlen
  | cons x t ih =>
    cases e with
    | nil => simp at hlen
    | cons y e =>
      have hlen2 : t.length = e.length := by simpa using hlen
      rw [List.zipWith_cons_cons, sumsq_cons, ih e hlen2, sumsq_cons, dot_cons, sumsq_cons]
      ring

/-! ## C2: the alpha_snr formula and its concrete values -/

/-- C2: for equal-length target and estimate with nonzero estimate power and
nonzero error power, alpha_snr returns the finite value
`10 * log10(target_power / error_power)` with the optimally scaled error
power, which moreover equals the least-squares residual
`target_power - inner^2 / estimate_power`; and concretely
`alpha_snr([1,1,1,1],[1,1,1,1])` and `alpha_snr([2,2],[1,1])` are +inf while
`alpha_snr([1,0],[0,1])` is the finite closed-form value 0. -/
theorem claim_C2_alpha_snr_formula (t e : List ℚ) (hlen : t.length = e.length)
    (hep : sumsq e ≠ 0) (herr : errPower t e ≠ 0) :
    alpha_snr t e =
      FVal.fin (10 * Real.logb 10 ((sumsq t : ℝ) / (errPower t e : ℝ))) ∧
    errPower t e = sumsq t - (dot e t) ^ 2 / sumsq e ∧
    alpha_snr [1, 1, 1, 1] [1, 1, 1, 1] = FVal.posInf ∧
    alpha_snr [2, 2] [1, 1] = FVal.posInf ∧
    alpha_snr [1, 0] [0, 1] = FVal.fin 0 := by
  have htp : sumsq t ≠ 0 := by
    intro h0
    exact herr (errPower_eq_zero_of_target t e h0)
  refine ⟨?_, ?_, ?_, ?_, ?_⟩
  · unfold alpha_snr
    rw [if_neg hep, if_neg herr, if_neg htp]
  · unfold errPower
    rw [sumsq_sub_scaled t e hlen (alphaCoeff t e)]
    unfold alphaCoeff
    field_simp
    ring
  · unfold alpha_snr
    rw [if_neg (by norm_num [sumsq]), if_pos (by norm_num [errPower, alphaCoeff, sumsq, dot]),
      if_neg (by norm_num [sumsq])]
  · unfold alpha_snr
    rw [if_neg (by norm_num [sumsq]), if_pos (by norm_num [errPower, alphaCoeff, sumsq, dot]),
      if_neg (by norm_num [sumsq])]
  · unfold alpha_snr
    rw [if_neg (by norm_num [sumsq]), if_neg (by norm_num [errPower, alphaCoeff, sumsq, dot]),
      if_neg (by norm_num [sumsq])]
    norm_num [errPower, alphaCoeff, sumsq, dot]

/-- Witness for C2 at the concrete input target `[1,0]`, estimate `[0,1]`. -/
theorem claim_C2_alpha_snr_formula_witness :
    alpha_snr [1, 0] [0, 1] =
      FVal.fin (10 * Real.logb 10 ((sumsq [1, 0] : ℝ) / (errPower [1, 0] [0, 1] : ℝ))) :=
  (claim_C2_alpha_snr_formula [1, 0] [0, 1] rfl
    (by norm_num [sumsq]) (by norm_num [errPower, alphaCoeff, sumsq, dot])).1

/-! ## C3: degenerate inputs of alpha_snr -/

/-- C3 counterexample: with estimate `[0,0]` (zero estimate power) and target
`[1,0]`, alpha_snr returns the value NaN; no exception is signalled.  The
code contains no DegenerateInputError: the numpy division `0/0` only emits a
RuntimeWarning and NaN then propagates to the returned scalar. -/
theorem claim_C3_counterexample :
    sumsq ([0, 0] : List ℚ) = 0 ∧ alpha_snr [1, 0] [0, 0] = FVal.nan := by
  constructor
  · norm_num [sumsq]
  · unfold alpha_snr
    rw [if_pos (by norm_num [sumsq])]

/-- C3 as amended: a zero-energy estimate makes alpha_snr return NaN (not an
exception), and a zero error power with nonzero target and nonzero estimate
power makes it return +inf as an ordinary value. -/
theorem claim_C3_degenerate_amended (t e : List ℚ) :
    (sumsq e = 0 → alpha_snr t e = FVal.nan) ∧
    (sumsq e ≠ 0 → sumsq t ≠ 0 → errPower t e = 0 → alpha_snr t e = FVal.posInf) := by
  constructor
  · intro h
    unfold alpha_snr
    rw [if_pos h]
  · intro h1 h2 h3
    unfold alpha_snr
    rw [if_neg h1, if_pos h3, if_neg h2]

/-- Witness for C3: both degenerate behaviours at concrete inputs. -/
theorem claim_C3_degenerate_amended_witness :
    alpha_snr [2] [0] = FVal.nan ∧ alpha_snr [3] [1] = FVal.posInf := by
  constructor
  · exact (claim_C3_degenerate_amended [2] [0]).1 (by norm_num [sumsq])
  · exact (claim_C3_degenerate_amended [3] [1]).2 (by norm_num [sumsq])
      (by norm_num [sumsq]) (by norm_num [errPower, alphaCoeff, sumsq, dot])

/-! ## C4: non-2-D mixtures are rejected before any processing -/

/-- C4: for every mixture that is not 2-dimensional, predict_track fails with
invalidInput (the failed `assert(len(mix_audio.shape) == 2)` at line 152,
which the spec names InvalidInputError), and this holds for every resampling
and inference collaborator: the failure happens before any channel
adaptation, resampling or inference can run. -/
theorem claim_C4_non_2d_rejected (mono : Bool) (numSources I O : ℕ)
    (resample : Mat → Mat) (infer : Mat → List Mat) (mix : NPArr)
    (h : NPArr.ndim mix ≠ 2) :
    predict_track mono numSources I O resample infer mix =
      Except.error PredictErr.invalidInput := by
  unfold predict_track
  rw [if_neg h]

/-- Witness for C4 at a concrete 1-D mixture. -/
theorem claim_C4_non_2d_rejected_witness :
    NPArr.ndim (NPArr.vec [1, 2, 3]) ≠ 2 ∧
    predict_track true 4 600 400 id (fun _ => []) (NPArr.vec [1, 2, 3]) =
      Except.error PredictErr.invalidInput :=
  ⟨by decide,
    claim_C4_non_2d_rejected true 4 600 400 id (fun _ => []) (NPArr.vec [1, 2, 3]) (by decide)⟩

/-! ## C5: tracks shorter than one output window -/

/-- Helper for C5: whenever the resampled length is positive but strictly
below the output window, the loop runs exactly once and its start is the
negative integer `L - O`; the code does not special-case this to 0. -/
theorem windowStarts_short {L O : ℕ} (hL : 0 < L) (hLO : L < O) :
    windowStarts L O = [(L : ℤ) - (O : ℤ)] ∧ (L : ℤ) - (O : ℤ) < 0 := by
  have hO : 0 < O := lt_trans hL hLO
  have hdiv : (L + O - 1) / O = 1 := by
    apply Nat.div_eq_of_lt_le
    · omega
    · omega
  constructor
  · unfold windowStarts
    rw [hdiv]
    have : List.range 1 = [0] := rfl
    rw [this]
    simp only [List.map_cons, List.map_nil]
    rw [if_pos (by omega)]
  · omega

/-- C5 (the code evaluated at the failing input): at resampled length 100
with output window 400 the tiling loop of predict_track runs exactly one
window whose output start is the negative position `-300 = 100 - 400`, not 0
as the claim states. -/
theorem claim_C5_negative_start :
    windowStarts 100 400 = [-300] ∧ ((-300 : ℤ) < 0) := by
  have h := windowStarts_short (show 0 < 100 by norm_num) (show 100 < 400 by norm_num)
  constructor
  · rw [h.1]
    norm_num
  · norm_num

/-! ## C6: channel adaptation and channel restoration -/

/-- `(List.replicate c [x]).flatten = List.replicate c x`. -/
theorem flatten_replicate_singleton {α : Type} (c : ℕ) (x : α) :
    (List.replicate c [x]).flatten = List.replicate c x := by
  induction c with
  | zero => rfl
  | succ n ih => simp [List.replicate_succ, ih]

/-- C6: for a rectangular 2-D mixture with `c ≥ 1` channels:
with mono_downmix every frame is collapsed to the single channel
`(sum of the channels) / c` (averaging) and the adapted mixture has one
channel; without mono_downmix a single-channel mixture is duplicated to two
channels; and after inference, when mono_downmix was applied and the
original mixture had more than one channel, every frame of every estimate is
the single estimated value replicated across all `c` original channels, so
each returned estimate has the channel count of the original mixture. -/
theorem claim_C6_channel_adaptation (m : Mat) (c : ℕ) (hc : 0 < c)
    (hm : m ≠ []) (hrect : ∀ r ∈ m, r.length = c) :
    ((∀ (i : ℕ) (r : List ℚ), m[i]? = some r →
        (adaptChannels true m)[i]? = some [r.sum / (c : ℚ)]) ∧
      numChannels (adaptChannels true m) = 1) ∧
    (c = 1 →
      (∀ (i : ℕ) (r : List ℚ), m[i]? = some r →
        (adaptChannels false m)[i]? = some (r ++ r)) ∧
      numChannels (adaptChannels false m) = 2) ∧
    (∀ preds : List Mat, 1 < c → (∀ p ∈ preds, ∀ r ∈ p, r.length = 1) →
      ∀ p ∈ restoreChannels true c preds, ∀ r ∈ p,
        r.length = c ∧ ∃ x, r = List.replicate c x) := by
  refine ⟨⟨?_, ?_⟩, ?_, ?_⟩
  · intro i r hir
    have hmem : r ∈ m := List.getElem?_mem hir
    have hlen : r.length = c := hrect r hmem
    simp only [adaptChannels, if_pos]
    rw [List.getElem?_map, hir]
    simp [rowMean, hlen]
  · obtain ⟨r0, m', rfl⟩ : ∃ r0 m', m = r0 :: m' := by
      cases m with
      | nil => exact absurd rfl hm
      | cons a l => exact ⟨a, l, rfl⟩
    simp [adaptChannels, numChannels]
  · intro hc1
    constructor
    · intro i r hir
      have hnc : numChannels m = 1 := by
        obtain ⟨r0, m', rfl⟩ : ∃ r0 m', m = r0 :: m' := by
          cases m with
          | nil => exact absurd rfl hm
          | cons a l => exact ⟨a, l, rfl⟩
        simp [numChannels, hrect r0 (List.mem_cons_self r0 m'), hc1]
      simp only [adaptChannels, Bool.false_eq_true, if_false, hnc, if_pos]
      rw [List.getElem?_map, hir]
      simp
    · obtain ⟨r0, m', rfl⟩ : ∃ r0 m', m = r0 :: m' := by
        cases m with
        | nil => exact absurd rfl hm
        | cons a l => exact ⟨a, l, rfl⟩
      have h0 : r0.length = 1 := by
        rw [hrect r0 (List.mem_cons_self r0 m'), hc1]
      have hnc : numChannels (r0 :: m') = 1 := by simp [numChannels, h0]
      simp [adaptChannels, numChannels, hnc, h0]
  · intro preds hc2 hpred p hp r hr
    unfold restoreChannels at hp
    rw [if_pos ⟨rfl, hc2⟩] at hp
    obtain ⟨p0, hp0, rfl⟩ := List.mem_map.1 hp
    obtain ⟨r0, hr0, rfl⟩ := List.mem_map.1 hr
    have h1 : r0.length = 1 := hpred p0 hp0 r0 hr0
    obtain ⟨x, rfl⟩ := List.length_eq_one.1 h1
    rw [tileRow, flatten_replicate_singleton]
    exact ⟨by simp, x, rfl⟩

/-- Witness for C6 at the 2-channel mixture `[[1,2],[3,4]]` and a
single-channel prediction. -/
theorem claim_C6_channel_adaptation_witness :
    (adaptChannels true [[1, 2], [3, 4]])[0]? = some [(3 : ℚ) / 2] ∧
    ∀ p ∈ restoreChannels true 2 [[[5], [6]]], ∀ r ∈ p, r.length = 2 := by
  have hthm := claim_C6_channel_adaptation [[1, 2], [3, 4]] 2 (by norm_num)
    (by simp) (by decide)
  constructor
  · have h := hthm.1.1 0 [1, 2] rfl
    rw [h]
    norm_num
  · intro p hp r hr
    exact (hthm.2.2 [[[5], [6]]] (by norm_num) (by decide) p hp r hr).1

/-! ## C9: write_wav_skip_existing -/

/-- C9: write_wav_skip_existing writes only when no file exists at the path:
if a file exists the entire filesystem (in particular the existing file) is
returned unchanged, and if none exists the new content appears at the path
while every other path is untouched. -/
theorem claim_C9_skip_existing {π : Type} [DecidableEq π]
    (fs : π → Option (List ℚ × ℕ)) (path : π) (y : List ℚ) (sr : ℕ) :
    (∀ c, fs path = some c → write_wav_skip_existing fs path y sr = fs) ∧
    (fs path = none →
      write_wav_skip_existing fs path y sr path = some (y, sr) ∧
      ∀ p, p ≠ path → write_wav_skip_existing fs path y sr p = fs p) := by
  constructor
  · intro c hc
    unfold write_wav_skip_existing
    rw [if_neg (by simp [hc])]
  · intro hn
    unfold write_wav_skip_existing
    rw [if_pos hn]
    refine ⟨by simp, fun p hp => by simp [hp]⟩

/-- Witness for C9: a concrete filesystem over natural-number paths, once
with the target file present (contents preserved) and once absent (file
written). -/
theorem claim_C9_skip_existing_witness :
    write_wav_skip_existing (fun p : ℕ => if p = 7 then some ([1], 44100) else none) 7 [2] 8000 7
      = some ([1], 44100) ∧
    write_wav_skip_existing (fun _ : ℕ => none) 7 [2] 8000 7 = some ([2], 8000) := by
  constructor
  · have h := (claim_C9_skip_existing
      (fun p : ℕ => if p = 7 then some ([1], 44100) else none) 7 [2] 8000).1
      ([1], 44100) (by norm_num)
    rw [h]
    norm_num
  · exact ((claim_C9_skip_existing (fun _ : ℕ => none) 7 [2] 8000).2 rfl).1

/-! ## Helper lemmas for metric aggregation -/

theorem filterNaN_map_optionMap (f : ℚ → ℚ) (xs : List (Option ℚ)) :
    filterNaN (xs.map (Option.map f)) = (filterNaN xs).map f := by
  induction xs with
  | nil => rfl
  | cons x xs ih =>
    cases x with
    | none => simpa [filterNaN] using ih
    | some a => simpa [filterNaN] using ih

theorem filterNaN_map_const_none (xs : List (Option ℚ)) :
    filterNaN (xs.map (fun _ => (none : Option ℚ))) = [] := by
  induction xs with
  | nil => rfl
  | cons x xs ih => simpa [filterNaN] using ih

theorem filterNaN_eq_nil_of_all_none (xs : List (Option ℚ))
    (h : ∀ x ∈ xs, x = none) : filterNaN xs = [] := by
  induction xs with
  | nil => rfl
  | cons x xs ih =>
    have hx : x = none := h x (List.mem_cons_self x xs)
    subst hx
    simpa [filterNaN] using ih (fun z hz => h z (List.mem_cons_of_mem none hz))

theorem listMedian_nil : listMedian [] = none := by simp [listMedian]

theorem listMedian_perm {xs ys : List ℚ} (h : xs.Perm ys) :
    listMedian xs = listMedian ys := by
  have hlen : xs.length = ys.length := h.length_eq
  haveI inst1 : IsTotal ℚ (fun x y : ℚ => x ≤ y) := ⟨fun a b => le_total a b⟩
  haveI inst2 : IsTrans ℚ (fun x y : ℚ => x ≤ y) := ⟨fun a b c hab hbc => le_trans hab hbc⟩
  haveI inst3 : IsAntisymm ℚ (fun x y : ℚ => x ≤ y) := ⟨fun a b hab hba => le_antisymm hab hba⟩
  have hsort : List.insertionSort (fun x y => x ≤ y) xs
      = List.insertionSort (fun x y => x ≤ y) ys := by
    have hp : (List.insertionSort (fun x y => x ≤ y) xs).Perm
        (List.insertionSort (fun x y => x ≤ y) ys) :=
      (List.perm_insertionSort _ xs).trans (h.trans (List.perm_insertionSort _ ys).symm)
    exact List.eq_of_perm_of_sorted hp (List.sorted_insertionSort _ xs)
      (List.sorted_insertionSort _ ys)
  unfold listMedian
  rw [hlen, hsort]

theorem listMean_perm {xs ys : List ℚ} (h : xs.Perm ys) :
    listMean xs = listMean ys := by
  unfold listMean
  rw [h.length_eq, h.sum_eq]

theorem listVar_perm {xs ys : List ℚ} (h : xs.Perm ys) :
    listVar xs = listVar ys := by
  unfold listVar
  rw [h.length_eq, h.sum_eq, (h.map (fun x => (x - ys.sum / (ys.length : ℚ)) ^ 2)).sum_eq]

theorem nanmedian_perm {xs ys : List (Option ℚ)} (h : xs.Perm ys) :
    nanmedian xs = nanmedian ys :=
  listMedian_perm (h.filterMap id)

/-- All four statistics of line 209 are invariant under permuting the
accumulated score list: the aggregation is over an unordered multiset. -/
theorem summarizeSource_perm {xs ys : List (Option ℚ)} (h : xs.Perm ys) :
    summarizeSource xs = summarizeSource ys := by
  have hmed : nanmedian xs = nanmedian ys := nanmedian_perm h
  have hdev : nanmedian (nanDeviations xs) = nanmedian (nanDeviations ys) := by
    apply nanmedian_perm
    unfold nanDeviations
    rw [hmed]
    cases nanmedian ys with
    | none => exact h.map _
    | some m => exact h.map _
  have hf : (filterNaN xs).Perm (filterNaN ys) := h.filterMap id
  unfold summarizeSource
  rw [hmed, hdev]
  unfold nanmean nanvar
  rw [listMean_perm hf, listVar_perm hf]

theorem extendAll_length : ∀ (ls ts : List (List (Option ℚ))),
    (extendAll ls ts).length = ls.length
  | _, [] => by simp [extendAll]
  | [], _ :: _ => by simp [extendAll]
  | l :: ls, t :: ts => by
    simp only [extendAll, List.length_cons]
    rw [extendAll_length ls ts]

theorem extendAll_getElem? : ∀ (ls ts : List (List (Option ℚ))) (i : ℕ),
    (extendAll ls ts)[i]? = (ls[i]?).map (fun l => l ++ ((ts[i]?).getD []))
  | ls, [], i => by
    simp only [extendAll]
    cases h : ls[i]? <;> simp
  | [], _ :: _, i => by simp [extendAll]
  | l :: ls, t :: ts, 0 => by simp [extendAll]
  | l :: ls, t :: ts, (i + 1) => by
    simp only [extendAll, List.getElem?_cons_succ]
    exact extendAll_getElem? ls ts i

theorem gatherSource_nil (i : ℕ) : gatherSource [] i = [] := rfl

theorem gatherSource_cons (r : List (List (Option ℚ)))
    (rs : List (List (List (Option ℚ)))) (i : ℕ) :
    gatherSource (r :: rs) i = ((r[i]?).getD []) ++ gatherSource rs i := by
  simp [gatherSource]

/-- Invariant of the accumulation fold: starting from an initialised
accumulator, the fold succeeds and appends, per source index, exactly the
concatenation of the target-`i` frame lists of the processed records. -/
theorem foldlM_accumStep_ok :
    ∀ (ts : List (List (List (Option ℚ)))) (L0 : List (List (Option ℚ))),
    (∀ t ∈ ts, t.length ≤ L0.length) →
    ∃ LF, ts.foldlM accumStep (some L0) = Except.ok (some LF) ∧
      LF.length = L0.length ∧
      ∀ i : ℕ, LF[i]? = (L0[i]?).map (fun l => l ++ gatherSource ts i)
  | [], L0, _ => by
    refine ⟨L0, rfl, rfl, ?_⟩
    intro i
    cases h : L0[i]? <;> simp [gatherSource_nil]
  | t :: ts, L0, h => by
    have ht : t.length ≤ L0.length := h t (List.mem_cons_self t ts)
    have hstep : accumStep (some L0) t = Except.ok (some (extendAll L0 t)) := by
      unfold accumStep
      simp only [Option.getD_some]
      rw [if_pos ht]
    have hlen2 : ∀ s ∈ ts, s.length ≤ (extendAll L0 t).length := by
      intro s hs
      rw [extendAll_length]
      exact h s (List.mem_cons_of_mem t hs)
    obtain ⟨LF, hLF, hlen, hget⟩ := foldlM_accumStep_ok ts (extendAll L0 t) hlen2
    refine ⟨LF, ?_, by rw [hlen, extendAll_length], ?_⟩
    · rw [List.foldlM_cons, hstep]
      simpa using hLF
    · intro i
      rw [hget i, extendAll_getElem?, gatherSource_cons]
      cases h0 : L0[i]? <;> simp

/-- The accumulation loop of compute_mean_metrics, for a nonempty record
list whose records all have `n` targets, produces exactly the per-source
gathered score lists. -/
theorem compute_metrics_accum (records : List (List (List (Option ℚ)))) (n : ℕ)
    (hne : records ≠ []) (hlen : ∀ r ∈ records, r.length = n) :
    records.foldlM accumStep none =
      Except.ok (some ((List.range n).map (fun i => gatherSource records i))) := by
  obtain ⟨r, rs, rfl⟩ : ∃ r rs, records = r :: rs := by
    cases records with
    | nil => exact absurd rfl hne
    | cons a l => exact ⟨a, l, rfl⟩
  have hr : r.length = n := hlen r (List.mem_cons_self r rs)
  have hstep : accumStep none r
      = Except.ok (some (extendAll (List.replicate r.length []) r)) := by
    unfold accumStep
    simp only [Option.getD_none]
    rw [if_pos (by simp)]
  have hL0len : (extendAll (List.replicate r.length []) r).length = n := by
    rw [extendAll_length, List.length_replicate, hr]
  have hL0get : ∀ i : ℕ, (extendAll (List.replicate r.length []) r)[i]?
      = if i < n then some ((r[i]?).getD []) else none := by
    intro i
    rw [extendAll_getElem?]
    by_cases hi : i < n
    · rw [if_pos hi, List.getElem?_replicate_of_lt (by omega : i < r.length)]
      simp
    · have hrep : (List.replicate r.length ([] : List (Option ℚ)))[i]? = none :=
        List.getElem?_eq_none (by simpa using (by omega : r.length ≤ i))
      rw [if_neg hi, hrep]
      rfl
  have hts : ∀ t ∈ rs, t.length ≤ (extendAll (List.replicate r.length []) r).length := by
    intro t hts
    rw [hL0len, hlen t (List.mem_cons_of_mem r hts)]
  obtain ⟨LF, hLF, hlenF, hgetF⟩ :=
    foldlM_accumStep_ok rs (extendAll (List.replicate r.length []) r) hts
  rw [List.foldlM_cons, hstep]
  have hfin : LF = (List.range n).map (fun i => gatherSource (r :: rs) i) := by
    apply List.ext_getElem?
    intro i
    rw [hgetF i, hL0get i, List.getElem?_map]
    by_cases hi : i < n
    · rw [if_pos hi, List.getElem?_range hi]
      simp [gatherSource_cons]
    · rw [if_neg hi, List.getElem?_eq_none (by simpa using hi)]
      rfl
  rw [hfin] at hLF
  simpa using hLF

/-- compute_mean_metrics on a nonempty, target-count-uniform record list:
closed form of both output modes. -/
theorem compute_mean_metrics_eq (records : List (List (List (Option ℚ)))) (n : ℕ)
    (hne : records ≠ []) (hlen : ∀ r ∈ records, r.length = n) (b : Bool) :
    compute_mean_metrics records b = Except.ok
      (if b then
        MetricsOut.averages ((List.range n).map
          (fun i => summarizeSource (gatherSource records i)))
      else
        MetricsOut.raw ((List.range n).map (fun i => gatherSource records i))) := by
  unfold compute_mean_metrics
  rw [compute_metrics_accum records n hne hlen]
  cases b with
  | true =>
    show Except.ok (MetricsOut.averages
      (((List.range n).map (fun i => gatherSource records i)).map summarizeSource)) = _
    rw [List.map_map]
    rfl
  | false => rfl

/-! ## C7: NaN-ignoring summary statistics -/

/-- C7: the per-source summary tuple of compute_mean_metrics (line 209 of
Evaluate.py) is exactly the plain (median, median absolute deviation from
the median, mean, variance = squared std) of the scores remaining after the
NaN entries are dropped; a source whose scores are all NaN gets the tuple
(NaN, NaN, NaN, NaN) and no exception; and for every nonempty uniform
record collection, compute_mean_metrics with compute_averages true returns
one such tuple per source over the gathered scores of that source. -/
theorem claim_C7_nan_ignoring_stats (xs : List (Option ℚ)) :
    summarizeSource xs =
      (listMedian (filterNaN xs),
       (listMedian (filterNaN xs)).bind
         (fun m => listMedian ((filterNaN xs).map (fun x => |x - m|))),
       listMean (filterNaN xs),
       listVar (filterNaN xs)) ∧
    ((∀ x ∈ xs, x = none) → summarizeSource xs = (none, none, none, none)) ∧
    (∀ (records : List (List (List (Option ℚ)))) (n : ℕ), records ≠ [] →
      (∀ r ∈ records, r.length = n) →
      compute_mean_metrics records true = Except.ok (MetricsOut.averages
        ((List.range n).map (fun i => summarizeSource (gatherSource records i))))) := by
  refine ⟨?_, ?_, ?_⟩
  · have hdev : nanmedian (nanDeviations xs)
        = (listMedian (filterNaN xs)).bind
            (fun m => listMedian ((filterNaN xs).map (fun x => |x - m|))) := by
      unfold nanDeviations nanmedian
      cases hmed : listMedian (filterNaN xs) with
      | none =>
        rw [filterNaN_map_const_none, listMedian_nil]
        rfl
      | some m =>
        rw [filterNaN_map_optionMap]
        rfl
    unfold summarizeSource
    rw [hdev]
    rfl
  · intro hall
    have hnil : filterNaN xs = [] := filterNaN_eq_nil_of_all_none xs hall
    unfold summarizeSource nanmedian nanmean nanvar nanDeviations nanmedian
    rw [hnil, listMedian_nil, filterNaN_map_const_none, listMedian_nil]
    simp [listMean, listVar, listMedian]
  · intro records n hne hlen
    have h := compute_mean_metrics_eq records n hne hlen true
    rw [h]
    rfl

/-- Witness for C7: the all-NaN source [NaN, NaN] gives all-NaN statistics,
and a source [3, NaN] gives the statistics of the single remaining score. -/
theorem claim_C7_nan_ignoring_stats_witness :
    summarizeSource [none, none] = (none, none, none, none) ∧
    summarizeSource [some 3, none] = (some 3, some 0, some 3, some 0) ∧
    compute_mean_metrics [[[none, none]]] true =
      Except.ok (MetricsOut.averages
        ((List.range 1).map (fun i => summarizeSource (gatherSource [[[none, none]]] i)))) := by
  refine ⟨?_, ?_, ?_⟩
  · exact (claim_C7_nan_ignoring_stats [none, none]).2.1 (by decide)
  · rw [(claim_C7_nan_ignoring_stats [some 3, none]).1]
    norm_num [listMedian, listMean, listVar, filterNaN, List.insertionSort,
      List.orderedInsert, List.filterMap]
  · exact (claim_C7_nan_ignoring_stats []).2.2 [[[none, none]]] 1 (by simp) (by decide)

/-! ## C8: order-independence of aggregation -/

/-- C8: accumulating any permutation of the same per-track score records
(all with the same target count) yields identical summary statistics from
compute_mean_metrics: per source, the gathered score lists are permutations
of each other and all four statistics are permutation-invariant. -/
theorem claim_C8_order_independence (recs recs2 : List (List (List (Option ℚ))))
    (n : ℕ) (hperm : recs.Perm recs2) (hlen : ∀ r ∈ recs, r.length = n) :
    compute_mean_metrics recs true = compute_mean_metrics recs2 true := by
  cases recs with
  | nil =>
    have h2 : recs2 = [] := hperm.symm.eq_nil
    rw [h2]
  | cons r rs =>
    have hne : (r :: rs) ≠ ([] : List (List (List (Option ℚ)))) := by simp
    have hne2 : recs2 ≠ [] := by
      intro h0
      rw [h0] at hperm
      exact absurd hperm.eq_nil hne
    have hlen2 : ∀ t ∈ recs2, t.length = n := by
      intro t ht
      exact hlen t (hperm.mem_iff.2 ht)
    rw [compute_mean_metrics_eq (r :: rs) n hne hlen true,
      compute_mean_metrics_eq recs2 n hne2 hlen2 true]
    have hsum : ∀ i : ℕ, summarizeSource (gatherSource (r :: rs) i)
        = summarizeSource (gatherSource recs2 i) := by
      intro i
      apply summarizeSource_perm
      exact (hperm.map (fun t => ((t[i]?).getD []))).flatten
    simp only [hsum, if_true]

/-- Witness for C8: two single-target records accumulated in both orders. -/
theorem claim_C8_order_independence_witness :
    compute_mean_metrics [[[some 1]], [[some 2]]] true
      = compute_mean_metrics [[[some 2]], [[some 1]]] true :=
  claim_C8_order_independence [[[some 1]], [[some 2]]] [[[some 2]], [[some 1]]] 1
    (List.Perm.swap [[some 2]] [[some 1]] []) (by decide)

/-! ## C10: empty score folder -/

/-- C10: with no JSON score file the accumulator is still Python None when
line 206 iterates over it, so compute_mean_metrics raises TypeError instead
of returning an empty result; with at least one record (and uniform target
counts) it returns a defined output. -/
theorem claim_C10_empty_folder (records : List (List (List (Option ℚ)))) (n : ℕ)
    (hne : records ≠ []) (hlen : ∀ r ∈ records, r.length = n) :
    compute_mean_metrics [] true = Except.error PyErr.typeError ∧
    ∃ v, compute_mean_metrics records true = Except.ok v := by
  constructor
  · rfl
  · exact ⟨_, compute_mean_metrics_eq records n hne hlen true⟩

/-- Witness for C10: the empty folder errors, one single record succeeds. -/
theorem claim_C10_empty_folder_witness :
    compute_mean_metrics [] true = Except.error PyErr.typeError ∧
    ∃ v, compute_mean_metrics [[[some 1]]] true = Except.ok v :=
  claim_C10_empty_folder [[[some 1]]] 1 (by simp) (by decide)

end Vimss
